import Mathlib

/-!
Shallow embedding of the retrieval core of a repository question-answering
system: a token-window chunker (`core/code_parser.py`), a collection-name
sanitizer, an index builder and a similarity retriever
(`core/retriever.py`), with the configuration constants of
`config/settings.py`.  External collaborators (the tiktoken encoder, the
Ollama embedding service and the ChromaDB storage backend) enter as
function parameters; the repository's own control flow and arithmetic are
translated directly.
-/

namespace GitAssistant

/-! ### Configuration (`config/settings.py`) -/

/-- Constant `Settings.CHUNK_SIZE` from `config/settings.py`. -/
def CHUNK_SIZE : Nat := 1000

/-- Constant `Settings.CHUNK_OVERLAP` from `config/settings.py`. -/
def CHUNK_OVERLAP : Nat := 200

/-- Constant `Settings.TOP_K_RESULTS` from `config/settings.py`. -/
def TOP_K_RESULTS : Nat := 5

/-! ### Data model (`core/code_parser.py`: class `CodeDocument`) -/

/-- Class `CodeDocument` of `core/code_parser.py`: a chunk of a source file with
its metadata. -/
structure CodeDocument where
  content : String
  file_path : String
  language : String
  chunk_id : Nat
deriving DecidableEq, Repr

/-! ### Chunker (`core/code_parser.py`: `CodeParser.chunk_text`)

The tiktoken encoder is external; it enters as a pair of parameters
`encode : String → List Nat` (tokens are opaque token ids) and
`decode : List Nat → String`.  The `while` loop of `chunk_text` is
translated as a fuel-indexed recursion; `chunk_text` supplies
`tokens.length + 1` fuel, which is enough for every configuration with
`overlap < chunk_size` because each iteration advances `start` by
`chunk_size - overlap ≥ 1` (with `overlap ≥ chunk_size` the Python loop
itself never terminates).  `start = end - overlap` is natural-number
subtraction here; it agrees with Python's integer subtraction whenever
`overlap ≤ chunk_size`, which covers the shipped configuration
(1000 / 200) and every configuration the theorems below address.  The
loop-exit comparison `start >= len(tokens) - self.chunk_overlap` is kept
in integer arithmetic exactly as in the source. -/

/-- The `while start < len(tokens)` loop of `CodeParser.chunk_text`:
emit the window `tokens[start : start + cs]` decoded, advance
`start` to `end - overlap`, increment `chunk_id`, and break once the new
`start` reaches `len(tokens) - overlap`. -/
def chunkDocsLoop (decode : List Nat → String) (cs ov : Nat)
    (tokens : List Nat) (fp lang : String) :
    Nat → Nat → Nat → List CodeDocument
  | 0, _, _ => []
  | fuel + 1, start, cid =>
    if start < tokens.length then
      let window := (tokens.drop start).take cs
      let doc : CodeDocument := ⟨decode window, fp, lang, cid⟩
      let next := start + cs - ov
      if ((next : Int) ≥ (tokens.length : Int) - (ov : Int)) then [doc]
      else doc :: chunkDocsLoop decode cs ov tokens fp lang fuel next (cid + 1)
    else []

/-- Method `CodeParser.chunk_text`: if the token count is at most `cs` return the
original text as a single chunk with `chunk_id = 0`; otherwise run the
sliding-window loop. -/
def chunkText (encode : String → List Nat) (decode : List Nat → String)
    (cs ov : Nat) (text fp lang : String) : List CodeDocument :=
  let tokens := encode text
  if tokens.length ≤ cs then [⟨text, fp, lang, 0⟩]
  else chunkDocsLoop decode cs ov tokens fp lang (tokens.length + 1) 0 0

/-- The start offsets produced by the `chunk_text` loop: same recursion
structure as `chunkDocsLoop`, recording `start` instead of the decoded
window. -/
def chunkStartsLoop (cs ov len : Nat) : Nat → Nat → List Nat
  | 0, _ => []
  | fuel + 1, start =>
    if start < len then
      let next := start + cs - ov
      if ((next : Int) ≥ (len : Int) - (ov : Int)) then [start]
      else start :: chunkStartsLoop cs ov len fuel next
    else []

theorem chunkDocsLoop_content (decode : List Nat → String) (cs ov : Nat)
    (tokens : List Nat) (fp lang : String) :
    ∀ fuel start cid,
      (chunkDocsLoop decode cs ov tokens fp lang fuel start cid).map
          (fun d => d.content)
        = (chunkStartsLoop cs ov tokens.length fuel start).map
            (fun s => decode ((tokens.drop s).take cs)) := by
  intro fuel
  induction fuel with
  | zero => intro start cid; rfl
  | succ fuel ih =>
    intro start cid
    rw [chunkDocsLoop, chunkStartsLoop]
    by_cases h : start < tokens.length
    · rw [if_pos h, if_pos h]
      by_cases hb :
          ((start + cs - ov : Nat) : Int) ≥ (tokens.length : Int) - (ov : Int)
      · rw [if_pos hb, if_pos hb]
        rfl
      · rw [if_neg hb, if_neg hb]
        simp [ih]
    · rw [if_neg h, if_neg h]
      rfl

/-- Specification of the loop's start offsets: an arithmetic progression
with difference `cs - ov`, at least one window, and every token index
from `start` up to `len` lies inside one of the emitted windows. -/
theorem chunkStartsLoop_spec (cs ov len : Nat) (hov : ov < cs) :
    ∀ fuel start, start < len → len ≤ start + fuel →
      ∃ k, 0 < k ∧
        chunkStartsLoop cs ov len fuel start
          = (List.range k).map (fun j => start + j * (cs - ov)) ∧
        ∀ i, start ≤ i → i < len →
          ∃ j, j < k ∧ start + j * (cs - ov) ≤ i ∧
            i < start + j * (cs - ov) + cs := by
  intro fuel
  induction fuel with
  | zero => intro start h1 h2; omega
  | succ fuel ih =>
    intro start h1 h2
    rw [chunkStartsLoop, if_pos h1]
    by_cases hb : ((start + cs - ov : Nat) : Int) ≥ (len : Int) - (ov : Int)
    · rw [if_pos hb]
      refine ⟨1, one_pos, ?_, ?_⟩
      · simp [List.range_succ]
      · intro i hi1 hi2
        refine ⟨0, one_pos, ?_, ?_⟩
        · simp only [Nat.zero_mul, Nat.add_zero]
          exact hi1
        · simp only [Nat.zero_mul, Nat.add_zero]
          omega
    · rw [if_neg hb]
      have hlt : start + cs < len := by omega
      have h1' : start + cs - ov < len := by omega
      obtain ⟨k, hk, heq, hcov⟩ := ih (start + cs - ov) h1' (by omega)
      refine ⟨k + 1, by omega, ?_, ?_⟩
      · rw [heq, List.range_succ_eq_map, List.map_cons, List.map_map]
        refine congrArg₂ List.cons ?_ (List.map_congr_left ?_)
        · simp only [Nat.zero_mul, Nat.add_zero]
        · intro j hj
          simp only [Function.comp_apply, Nat.succ_eq_add_one, Nat.add_mul,
            Nat.one_mul]
          omega
      · intro i hi1 hi2
        by_cases hc : i < start + cs - ov
        · refine ⟨0, by omega, ?_, ?_⟩
          · simp only [Nat.zero_mul, Nat.add_zero]
            exact hi1
          · simp only [Nat.zero_mul, Nat.add_zero]
            omega
        · obtain ⟨j, hjk, hj1, hj2⟩ := hcov i (by omega) hi2
          refine ⟨j + 1, by omega, ?_, ?_⟩
          · simp only [Nat.succ_eq_add_one, Nat.add_mul, Nat.one_mul]
            omega
          · simp only [Nat.succ_eq_add_one, Nat.add_mul, Nat.one_mul]
            omega

/-! ### Language detection and repository parsing
(`core/code_parser.py`: `get_language_from_extension`, `parse_repository`)

`FileUtils.scan_repository`, `read_file_content` and `get_relative_path`
are external I/O glue (the spec's File Scanner); `parse_repository` is
modelled on their result: an ordered list of
(repository-relative path, file content) pairs. -/

/-- Index of the last `'.'` in a character list (Python `str.rfind('.')`),
`none` when absent. -/
def rfindDotIdx : List Char → Option Nat
  | [] => none
  | a :: rest =>
    match rfindDotIdx rest with
    | some i => some (i + 1)
    | none => if a = '.' then some 0 else none

/-- Python `Path.suffix`: the extension (with leading dot) of the final
path component; empty when the last dot is at position 0 (hidden file) or
at the very end. -/
def pathSuffix (p : String) : String :=
  let name := (p.splitOn "/").getLastD ""
  let cs := name.toList
  match rfindDotIdx cs with
  | some i => if 0 < i ∧ i < cs.length - 1 then String.mk (cs.drop i) else ""
  | none => ""

/-- Python `str.lower` per character, on the Basic Latin and Latin-1
ranges (code points ≥ 0x100, whose lowercase forms Python also computes,
do not occur in any of the statements below). -/
def pythonLowerChar (c : Char) : Char :=
  let n := c.toNat
  if (65 ≤ n ∧ n ≤ 90) ∨ (0xC0 ≤ n ∧ n ≤ 0xDE ∧ n ≠ 0xD7) then
    Char.ofNat (n + 32)
  else c

/-- Python `str.lower` applied character-wise. -/
def lowerStr (s : String) : String :=
  String.mk (s.toList.map pythonLowerChar)

/-- The `ext_map` of `CodeParser.get_language_from_extension`. -/
def extLanguageMap : List (String × String) :=
  [(".py", "python"), (".js", "javascript"), (".jsx", "javascript"),
   (".ts", "typescript"), (".tsx", "typescript"), (".java", "java"),
   (".cpp", "cpp"), (".c", "c"), (".h", "c"), (".cs", "csharp"),
   (".go", "go"), (".rs", "rust"), (".php", "php"), (".rb", "ruby"),
   (".swift", "swift"), (".kt", "kotlin"), (".scala", "scala"),
   (".md", "markdown"), (".txt", "text"), (".json", "json"),
   (".yaml", "yaml"), (".yml", "yaml"), (".xml", "xml"),
   (".html", "html"), (".css", "css"), (".sh", "bash"),
   (".sql", "sql"), (".r", "r"), (".dart", "dart"),
   (".vue", "vue"), (".svelte", "svelte")]

/-- Method `CodeParser.get_language_from_extension`:
`ext_map.get(file_path.suffix.lower(), 'text')`. -/
def getLanguageFromExtension (p : String) : String :=
  (extLanguageMap.lookup (lowerStr (pathSuffix p))).getD "text"

/-- Method `CodeParser.parse_repository` over the scanner's output: skip files
whose content is empty (`if not content: continue`), chunk every other
file and append the chunks in file order. -/
def parseRepository (encode : String → List Nat) (decode : List Nat → String)
    (cs ov : Nat) : List (String × String) → List CodeDocument
  | [] => []
  | (p, content) :: rest =>
    if content = "" then parseRepository encode decode cs ov rest
    else
      chunkText encode decode cs ov content p (getLanguageFromExtension p)
        ++ parseRepository encode decode cs ov rest

/-! ### Concrete stand-in tokenizer

tiktoken's `cl100k_base` is an external model artifact; the claims hold
for every encoder/decoder pair, and the closed witnesses below
instantiate them with this character-level stand-in. -/

/-- Character-level stand-in encoder for witnesses: one token per
character. -/
def charEncode (s : String) : List Nat := s.toList.map Char.toNat

/-- Character-level stand-in decoder for witnesses. -/
def charDecode (l : List Nat) : String := String.mk (l.map Char.ofNat)

/-! ### Claims about the chunker -/

/-- C2 (Chunk coverage): for every input text whose token sequence is
longer than `chunk_size`, `chunk_text` emits windows that start at
successive offsets advancing by `chunk_size - overlap` tokens, and the
union of the emitted token windows covers the entire token sequence — no
token of the input is dropped, including the final partial window. -/
theorem chunkText_coverage (encode : String → List Nat)
    (decode : List Nat → String) (cs ov : Nat) (text fp lang : String)
    (hov : ov < cs) (hlong : cs < (encode text).length) :
    ∃ k, 0 < k ∧
      (chunkText encode decode cs ov text fp lang).map (fun d => d.content)
        = (List.range k).map
            (fun j => decode (((encode text).drop (j * (cs - ov))).take cs)) ∧
      ∀ i, i < (encode text).length →
        ∃ j, j < k ∧ j * (cs - ov) ≤ i ∧ i < j * (cs - ov) + cs := by
  obtain ⟨k, hk, heq, hcov⟩ :=
    chunkStartsLoop_spec cs ov (encode text).length hov
      ((encode text).length + 1) 0 (by omega) (by omega)
  refine ⟨k, hk, ?_, ?_⟩
  · simp only [chunkText]
    rw [if_neg (by omega)]
    rw [chunkDocsLoop_content, heq, List.map_map]
    refine List.map_congr_left ?_
    intro j hj
    simp
  · intro i hi
    obtain ⟨j, h1, h2, h3⟩ := hcov i (Nat.zero_le i) hi
    exact ⟨j, h1, by omega, by omega⟩

/-- Closed witness for C2 at a concrete tokenizer, configuration and
text. -/
theorem chunkText_coverage_witness :
    ∃ k, 0 < k ∧
      (chunkText charEncode charDecode 3 1 "abcdefgh" "f.py" "python").map
          (fun d => d.content)
        = (List.range k).map
            (fun j =>
              charDecode (((charEncode "abcdefgh").drop (j * (3 - 1))).take 3)) ∧
      ∀ i, i < (charEncode "abcdefgh").length →
        ∃ j, j < k ∧ j * (3 - 1) ≤ i ∧ i < j * (3 - 1) + 3 :=
  chunkText_coverage charEncode charDecode 3 1 "abcdefgh" "f.py" "python"
    (by decide) (by decide)

/-- C5 (Single-chunk shortcut): for every input text whose token count is
at most `chunk_size`, `chunk_text` emits exactly one chunk, with
`chunk_id = 0` and content equal to the original text verbatim (not a
decode of its token encoding). -/
theorem chunkText_single_chunk (encode : String → List Nat)
    (decode : List Nat → String) (cs ov : Nat) (text fp lang : String)
    (h : (encode text).length ≤ cs) :
    chunkText encode decode cs ov text fp lang
      = [{ content := text, file_path := fp, language := lang,
           chunk_id := 0 }] := by
  simp only [chunkText]
  rw [if_pos h]

/-- Closed witness for C5 at a concrete tokenizer and text, with the
shipped configuration. -/
theorem chunkText_single_chunk_witness :
    chunkText charEncode charDecode CHUNK_SIZE CHUNK_OVERLAP "hi" "a.py"
        "python"
      = [{ content := "hi", file_path := "a.py", language := "python",
           chunk_id := 0 }] :=
  chunkText_single_chunk charEncode charDecode CHUNK_SIZE CHUNK_OVERLAP
    "hi" "a.py" "python" (by decide)

/-- C8 counterexample: on the empty text, `chunk_text` does not produce
zero chunks — it returns exactly one chunk whose content is the empty
string (the token count 0 is at most `chunk_size`, so the single-chunk
path fires). -/
theorem chunkText_empty_counterexample :
    chunkText charEncode charDecode CHUNK_SIZE CHUNK_OVERLAP ""
        "empty.py" "python" ≠ ([] : List CodeDocument) ∧
    chunkText charEncode charDecode CHUNK_SIZE CHUNK_OVERLAP ""
        "empty.py" "python"
      = [{ content := "", file_path := "empty.py", language := "python",
           chunk_id := 0 }] := by
  constructor
  · decide
  · decide

/-- C8 amended: zero chunks for empty content arise in
`parse_repository`, which skips a file whose content is empty before ever
calling `chunk_text`; `chunk_text` itself returns a single empty chunk on
empty text. -/
theorem parseRepository_skips_empty (encode : String → List Nat)
    (decode : List Nat → String) (cs ov : Nat) (p : String)
    (files : List (String × String)) :
    parseRepository encode decode cs ov ((p, "") :: files)
      = parseRepository encode decode cs ov files := by
  simp [parseRepository]

/-! ### Collection naming (`core/retriever.py`:
`RAGRetriever._get_collection_name`) -/

/-- Python `str.isalnum` per character, on the Basic Latin and Latin-1
ranges: ASCII digits and letters, the Latin-1 letters `ª µ º À–ÿ`
(excluding `×` and `÷`) and the superscript digits `² ³ ¹`.  (Python also
accepts alphanumeric code points ≥ 0x100; none occurs in any statement
below.) -/
def pythonIsAlnum (c : Char) : Bool :=
  let n := c.toNat
  (48 ≤ n && n ≤ 57) || (65 ≤ n && n ≤ 90) || (97 ≤ n && n ≤ 122) ||
  n == 0xAA || n == 0xB2 || n == 0xB3 || n == 0xB5 || n == 0xB9 ||
  n == 0xBA ||
  (0xC0 ≤ n && n ≤ 0xFF && n != 0xD7 && n != 0xF7)

/-- Method `RAGRetriever._get_collection_name`:
`f"repo_{repo_name}".replace("-", "_").replace(".", "_")`, then keep only
characters with `c.isalnum() or c in "_-."`, then `name[:63].lower()`. -/
def getCollectionName (repo_name : String) : String :=
  let name := ("repo_" ++ repo_name).toList
  let name := name.map (fun c => if c = '-' then '_' else c)
  let name := name.map (fun c => if c = '.' then '_' else c)
  let name := name.filter
    (fun c => pythonIsAlnum c || c = '_' || c = '-' || c = '.')
  String.mk ((name.take 63).map pythonLowerChar)

/-! ### Vector index and retriever state (`core/retriever.py`)

ChromaDB is the external storage backend; the contract the retriever
relies on is modelled directly: a persistent store is a list of named
collections, a collection is an append-only list of
(id, document, metadata, embedding) records, `get_or_create_collection`
attaches to an existing collection or creates an empty one, `count` is
the number of records, and `add` appends a batch.  The Ollama embedding
generator is a function parameter `embed`. -/

/-- The per-record metadata written by `build_index`
(`file_path`, `language`, `chunk_id`). -/
structure RecordMeta where
  file_path : String
  language : String
  chunk_id : Nat
deriving DecidableEq, Repr

/-- One stored record of a ChromaDB collection: parallel entries of
`ids`, `documents`, `metadatas` and `embeddings` in `collection.add`. -/
structure StoredRecord where
  id : String
  document : String
  metadata : RecordMeta
  embedding : List ℚ
deriving DecidableEq, Repr

/-- The persistent store: named collections (`chromadb.PersistentClient`
rooted at one directory). -/
abbrev Store := List (String × List StoredRecord)

/-- ChromaDB's `get_or_create_collection`: attach to the named collection if
present, otherwise create it empty. -/
def getOrCreateCollection (store : Store) (nm : String) :
    Store × List StoredRecord :=
  match store.lookup nm with
  | some recs => (store, recs)
  | none => (store ++ [(nm, [])], [])

/-- Replace the records of the named collection. -/
def setCollection (store : Store) (nm : String)
    (recs : List StoredRecord) : Store :=
  store.map (fun p => if p.1 = nm then (nm, recs) else p)

/-- Records of the named collection (`collection.count` is its
length). -/
def collectionRecords (store : Store) (nm : String) : List StoredRecord :=
  (store.lookup nm).getD []

/-- Retriever-side state: the attached collection name
(`self.collection`) and the remembered document list
(`self.documents`). -/
structure RetrieverState where
  collection : Option String
  documents : List CodeDocument
deriving DecidableEq, Repr

/-- Constant `batch_size = 500` in `RAGRetriever.build_index`. -/
def batchSize : Nat := 500

/-- The batched-insert loop of `build_index`
(`for i in range(0, len(documents), batch_size): self.collection.add(...)`):
append the pending records to the collection `batchSize` at a time
(`pending[i : i + batch_size]` is `take batchSize` of the remaining
suffix). -/
def addBatches (coll pending : List StoredRecord) : List StoredRecord :=
  if h : pending = [] then coll
  else addBatches (coll ++ pending.take batchSize) (pending.drop batchSize)
termination_by pending.length
decreasing_by
  have hp : 0 < pending.length := List.length_pos.mpr h
  simp only [List.length_drop]
  simp only [batchSize]
  omega

/-- Zip the four parallel lists `ids`, `contents`, `metadatas`,
`embeddings` of `build_index` into stored records (ChromaDB's `add`
stores them as one record per position). -/
def zipRecords : List String → List String → List RecordMeta →
    List (List ℚ) → List StoredRecord
  | i :: is, c :: cs, m :: ms, e :: es =>
    ⟨i, c, m, e⟩ :: zipRecords is cs ms es
  | _, _, _, _ => []

/-- Method `RAGRetriever.build_index(documents, repo_name)`: raise on an empty
document list; resolve the collection name and attach (create-or-get);
if the collection already holds records, remember the documents and
return without writing; otherwise assign ids `doc_0..doc_{n-1}` in input
order, embed all contents, and bulk-insert in batches of 500. -/
def buildIndex (embed : String → List ℚ) (store : Store)
    (st : RetrieverState) (documents : List CodeDocument)
    (repo_name : String) : Except String (Store × RetrieverState) :=
  if documents.isEmpty then
    .error "No documents provided for indexing"
  else
    let collection_name := getCollectionName repo_name
    let attached := getOrCreateCollection store collection_name
    let existing_count := attached.2.length
    if 0 < existing_count then
      .ok (attached.1,
        { collection := some collection_name, documents := documents })
    else
      let ids := documents.enum.map (fun p => "doc_" ++ toString p.1)
      let contents := documents.enum.map (fun p => p.2.content)
      let metadatas := documents.enum.map
        (fun p => RecordMeta.mk p.2.file_path p.2.language p.2.chunk_id)
      let embeddings := contents.map embed
      let records := zipRecords ids contents metadatas embeddings
      let newRecs := addBatches attached.2 records
      .ok (setCollection attached.1 collection_name newRecs,
        { collection := some collection_name, documents := documents })

/-! ### Retrieval (`core/retriever.py`: `RAGRetriever.retrieve`) -/

/-- The distance-to-similarity conversion of `retrieve`:
`max(0.0, min(1.0, 1 - (dist**2 / 2)))`.  Distances are modelled as exact
rationals. -/
def similarity (d : ℚ) : ℚ := max 0 (min 1 (1 - d ^ 2 / 2))

/-- The result-assembly loop of `retrieve`: zip the backend's parallel
`documents`, `metadatas` and `distances` arrays and build one
(`CodeDocument`, similarity) pair per entry, in backend order (no
re-sorting). -/
def retrieveResults (texts : List String) (metas : List RecordMeta)
    (dists : List ℚ) : List (CodeDocument × ℚ) :=
  (texts.zip (metas.zip dists)).map
    (fun p =>
      (⟨p.1, p.2.1.file_path, p.2.1.language, p.2.1.chunk_id⟩,
        similarity p.2.2))

/-- Line `top_k = top_k or Settings.TOP_K_RESULTS`: Python's `or` replaces
both `None` (unsupplied) and `0` (falsy) by the configured default. -/
def effectiveTopK (topK : Option Int) : Int :=
  match topK with
  | none => TOP_K_RESULTS
  | some k => if k = 0 then TOP_K_RESULTS else k

/-- Method `RAGRetriever.retrieve(query, top_k)`: raise when no collection is
attached; otherwise query the backend for
`min(top_k, collection.count())` neighbors and assemble the results.  The
backend (`collection.query`, together with the query embedding) enters as
the parameter `backendQuery`, returning the three parallel arrays for a
requested neighbor count. -/
def retrieve (collection : Option String)
    (backendQuery : Int → List String × List RecordMeta × List ℚ)
    (count : Nat) (topK : Option Int) :
    Except String (List (CodeDocument × ℚ)) :=
  match collection with
  | none => .error "Collection not initialized"
  | some _ =>
    let k := effectiveTopK topK
    let res := backendQuery (min k (count : Int))
    .ok (retrieveResults res.1 res.2.1 res.2.2)

/-! ### Claims about collection naming -/

/-- One character of the claim's pattern `[a-z0-9_.-]`. -/
def namePatternChar (c : Char) : Bool :=
  let n := c.toNat
  (97 ≤ n && n ≤ 122) || (48 ≤ n && n ≤ 57) || n == 95 || n == 45 ||
    n == 46

/-- The claim's pattern `^[a-z0-9_.-]{1,63}$`. -/
def matchesNamePattern (s : String) : Bool :=
  (1 ≤ s.length && s.length ≤ 63) && s.toList.all namePatternChar

theorem charOfNat_toNat (n : Nat) (h : n.isValidChar) :
    (Char.ofNat n).toNat = n := by
  unfold Char.ofNat
  rw [dif_pos h]
  rfl

/-- A kept character of an ASCII input, lowered, lands in the pattern's
character class. -/
theorem namePatternChar_of_kept (c : Char) (hc : c.toNat < 128)
    (hk : (pythonIsAlnum c || c = '_' || c = '-' || c = '.') = true) :
    namePatternChar (pythonLowerChar c) = true := by
  simp only [Bool.or_eq_true, decide_eq_true_eq] at hk
  rcases hk with ((ha | h1) | h2) | h3
  · simp only [pythonIsAlnum, Bool.or_eq_true, Bool.and_eq_true,
      decide_eq_true_eq, beq_iff_eq, bne_iff_ne] at ha
    rcases ha with ((((((((hd | hu) | hl) | hx) | hx) | hx) | hx) | hx)
        | hx) | hx
    · have he : pythonLowerChar c = c := by
        simp only [pythonLowerChar]
        rw [if_neg (by omega)]
      rw [he]
      simp only [namePatternChar, Bool.or_eq_true, Bool.and_eq_true,
        decide_eq_true_eq, beq_iff_eq]
      omega
    · have he : pythonLowerChar c = Char.ofNat (c.toNat + 32) := by
        simp only [pythonLowerChar]
        rw [if_pos (by omega)]
      rw [he]
      have hv : (c.toNat + 32).isValidChar := Or.inl (by omega)
      simp only [namePatternChar, Bool.or_eq_true, Bool.and_eq_true,
        decide_eq_true_eq, beq_iff_eq, charOfNat_toNat _ hv]
      omega
    · have he : pythonLowerChar c = c := by
        simp only [pythonLowerChar]
        rw [if_neg (by omega)]
      rw [he]
      simp only [namePatternChar, Bool.or_eq_true, Bool.and_eq_true,
        decide_eq_true_eq, beq_iff_eq]
      omega
    all_goals omega
  · subst h1; decide
  · subst h2; decide
  · subst h3; decide

/-- C4 counterexample: `_get_collection_name` applied to the repository
name `"é"` (Python's `isalnum` accepts the non-ASCII letter, and
`lower` keeps it) produces `"repo_é"`, which does not match
`^[a-z0-9_.-]{1,63}$`. -/
theorem getCollectionName_pattern_counterexample :
    matchesNamePattern (getCollectionName "é") = false := by decide

/-- C4 amended: `_get_collection_name` is a pure function — the same
input always yields the same output — and for every input string all of
whose characters are ASCII, the output matches `^[a-z0-9_.-]{1,63}$`
(a non-ASCII alphanumeric such as `é` survives the filter and falls
outside the pattern, so the ASCII restriction is necessary). -/
theorem getCollectionName_ascii_pattern (repo : String)
    (h : ∀ c ∈ repo.toList, c.toNat < 128) :
    getCollectionName repo = getCollectionName repo ∧
    matchesNamePattern (getCollectionName repo) = true := by
  refine ⟨rfl, ?_⟩
  simp only [getCollectionName]
  have hsplit : ("repo_" ++ repo).toList = "repo_".toList ++ repo.toList :=
    rfl
  set fdash := fun c : Char => if c = '-' then '_' else c with hfdash
  set fdot := fun c : Char => if c = '.' then '_' else c with hfdot
  set keep :=
    fun c : Char => pythonIsAlnum c || c = '_' || c = '-' || c = '.'
    with hkeep
  set l3 := ((("repo_" ++ repo).toList.map fdash).map fdot).filter keep
    with hl3
  have hmem : ∀ c ∈ l3, c.toNat < 128 ∧ keep c = true := by
    intro c hcmem
    refine ⟨?_, List.of_mem_filter hcmem⟩
    have hc2 := List.mem_of_mem_filter hcmem
    obtain ⟨c1, hc1, rfl⟩ := List.mem_map.mp hc2
    obtain ⟨c0, hc0, rfl⟩ := List.mem_map.mp hc1
    have h0 : c0.toNat < 128 := by
      rw [hsplit] at hc0
      rcases List.mem_append.mp hc0 with hp | hr
      · have : c0 ∈ ['r', 'e', 'p', 'o', '_'] := hp
        fin_cases this <;> decide
      · exact h c0 hr
    have hd1 : (fdash c0).toNat < 128 := by
      rw [hfdash]
      by_cases hcc : c0 = '-'
      · simp [hcc]
      · simp only [if_neg hcc]
        exact h0
    rw [hfdot]
    by_cases hcc : fdash c0 = '.'
    · simp [hcc]
    · simp only [if_neg hcc]
      exact hd1
  have hr3 : 'r' ∈ l3 := by
    rw [hl3]
    refine List.mem_filter.mpr ⟨?_, by decide⟩
    refine List.mem_map.mpr ⟨'r', List.mem_map.mpr ⟨'r', ?_, by decide⟩,
      by decide⟩
    rw [hsplit]
    exact List.mem_append.mpr (Or.inl (by decide))
  have hpos : 0 < l3.length := List.length_pos.mpr (List.ne_nil_of_mem hr3)
  simp only [matchesNamePattern, Bool.and_eq_true, decide_eq_true_eq,
    List.all_eq_true]
  refine ⟨⟨?_, ?_⟩, ?_⟩
  · show 1 ≤ ((l3.take 63).map pythonLowerChar).length
    rw [List.length_map, List.length_take]
    omega
  · show ((l3.take 63).map pythonLowerChar).length ≤ 63
    rw [List.length_map]
    exact l3.length_take_le 63
  · intro c hcmem
    have hcmem' : c ∈ (l3.take 63).map pythonLowerChar := hcmem
    obtain ⟨c1, hc1, rfl⟩ := List.mem_map.mp hcmem'
    have hc1' := List.mem_of_mem_take hc1
    obtain ⟨hlt, hkc⟩ := hmem c1 hc1'
    exact namePatternChar_of_kept c1 hlt hkc

/-- Closed witness for the amended C4 at a concrete ASCII repository
name. -/
theorem getCollectionName_ascii_pattern_witness :
    getCollectionName "My-Repo.js" = getCollectionName "My-Repo.js" ∧
    matchesNamePattern (getCollectionName "My-Repo.js") = true :=
  getCollectionName_ascii_pattern "My-Repo.js" (by decide)

/-! ### Claims about index building -/

theorem addBatches_eq (n : Nat) :
    ∀ pending : List StoredRecord, pending.length ≤ n →
      ∀ coll, addBatches coll pending = coll ++ pending := by
  induction n with
  | zero =>
    intro pending hp coll
    have hnil : pending = [] := List.length_eq_zero.mp (Nat.le_zero.mp hp)
    subst hnil
    rw [addBatches]
    simp
  | succ n ih =>
    intro pending hp coll
    rw [addBatches]
    by_cases hnil : pending = []
    · rw [dif_pos hnil]
      simp [hnil]
    · rw [dif_neg hnil]
      have hlp : 0 < pending.length := List.length_pos.mpr hnil
      have hlen : (pending.drop batchSize).length ≤ n := by
        simp only [List.length_drop, batchSize]
        omega
      rw [ih _ hlen, List.append_assoc, List.take_append_drop]

/-- The batch loop appends all pending records, in order: the batched
inserts concatenate to the full record sequence. -/
theorem addBatches_append (coll pending : List StoredRecord) :
    addBatches coll pending = coll ++ pending :=
  addBatches_eq pending.length pending (le_refl _) coll

theorem zipRecords_maps {α : Type} (f1 f2 : α → String)
    (f3 : α → RecordMeta) (f4 : α → List ℚ) :
    ∀ l : List α,
      zipRecords (l.map f1) (l.map f2) (l.map f3) (l.map f4)
        = l.map (fun x => ⟨f1 x, f2 x, f3 x, f4 x⟩) := by
  intro l
  induction l with
  | nil => rfl
  | cons a l ih => simp [zipRecords, ih]

theorem lookup_setCollection_fresh (nm : String) (r : List StoredRecord) :
    ∀ store : Store, store.lookup nm = none →
      (setCollection (store ++ [(nm, [])]) nm r).lookup nm = some r := by
  intro store
  induction store with
  | nil =>
    intro _
    simp only [List.nil_append, setCollection, List.map_cons, List.map_nil,
      eq_self_iff_true, if_true]
    simp [List.lookup]
  | cons p rest ih =>
    intro hfree
    obtain ⟨k, v⟩ := p
    by_cases hk : nm = k
    · subst hk
      simp [List.lookup] at hfree
    · have hbeq : (nm == k) = false := beq_eq_false_iff_ne.mpr hk
      simp only [List.lookup, hbeq] at hfree
      simp only [List.cons_append, setCollection, List.map_cons]
      rw [if_neg (fun he => hk he.symm)]
      simp only [List.lookup, hbeq]
      simpa only [setCollection] using ih hfree

theorem collectionRecords_build (store : Store) (nm : String)
    (r : List StoredRecord) (hfree : store.lookup nm = none) :
    collectionRecords (setCollection (store ++ [(nm, [])]) nm r) nm
      = r := by
  unfold collectionRecords
  rw [lookup_setCollection_fresh nm r store hfree]
  rfl

/-- The record built for position `p.1` and document `p.2` of the
enumerated input. -/
def recordFor (embed : String → List ℚ) (p : Nat × CodeDocument) :
    StoredRecord :=
  { id := "doc_" ++ toString p.1
    document := p.2.content
    metadata := { file_path := p.2.file_path, language := p.2.language,
                  chunk_id := p.2.chunk_id }
    embedding := embed p.2.content }

/-- Running `build_index` on a fresh (absent) collection: create it and insert
one record per document. -/
theorem buildIndex_fresh (embed : String → List ℚ) (store : Store)
    (st : RetrieverState) (docs : List CodeDocument) (repo : String)
    (hdocs : docs ≠ [])
    (hfresh : store.lookup (getCollectionName repo) = none) :
    buildIndex embed store st docs repo
      = .ok (setCollection (store ++ [(getCollectionName repo, [])])
              (getCollectionName repo) (docs.enum.map (recordFor embed)),
            { collection := some (getCollectionName repo),
              documents := docs }) := by
  have hne : ¬ docs.isEmpty = true := by
    simpa [List.isEmpty_iff] using hdocs
  have hg : getOrCreateCollection store (getCollectionName repo)
      = (store ++ [(getCollectionName repo, [])], []) := by
    unfold getOrCreateCollection
    rw [hfresh]
  simp only [buildIndex]
  rw [if_neg hne, hg]
  simp only [List.length_nil, lt_irrefl, if_false, List.map_map]
  rw [zipRecords_maps (fun p => "doc_" ++ toString p.1)
      (fun p : Nat × CodeDocument => p.2.content)
      (fun p => RecordMeta.mk p.2.file_path p.2.language p.2.chunk_id)
      (embed ∘ fun p => p.2.content) docs.enum]
  rw [addBatches_append, List.nil_append]
  rfl

/-- Running `build_index` on an already populated collection: the cache-hit
path — no write, no embedding, just remember the documents. -/
theorem buildIndex_cached (embed : String → List ℚ) (store : Store)
    (st : RetrieverState) (docs : List CodeDocument) (repo : String)
    (recs : List StoredRecord) (hdocs : docs ≠ [])
    (hlook : store.lookup (getCollectionName repo) = some recs)
    (hne : recs ≠ []) :
    buildIndex embed store st docs repo
      = .ok (store, { collection := some (getCollectionName repo),
                      documents := docs }) := by
  have hempty : ¬ docs.isEmpty = true := by
    simpa [List.isEmpty_iff] using hdocs
  have hg : getOrCreateCollection store (getCollectionName repo)
      = (store, recs) := by
    unfold getOrCreateCollection
    rw [hlook]
  simp only [buildIndex]
  rw [if_neg hempty, hg]
  simp only []
  rw [if_pos (List.length_pos.mpr hne)]

/-- C7 (Empty-build error with no mutation): `build_index` with an empty
document list always fails with the empty-input error (`ValueError("No
documents provided for indexing")`, the spec's `EmptyInputError`); the
failure is raised before any collection is attached or written, so no
store or retriever state is produced or mutated, whatever they were. -/
theorem buildIndex_empty_error (embed : String → List ℚ) (store : Store)
    (st : RetrieverState) (repo : String) :
    buildIndex embed store st [] repo
      = .error "No documents provided for indexing" := rfl

/-- C1 (Idempotent build / cache hit): for every non-empty document list,
building against a repository whose collection does not yet exist leaves
`count(collection) = len(docs)`; calling `build_index` again with the
same repository name changes nothing in the store (no insert), records
the passed-in document list, and — being independent of the embedding
function — performs no embedding. -/
theorem buildIndex_idempotent (embed : String → List ℚ)
    (docs : List CodeDocument) (repo : String) (store₀ : Store)
    (st₀ : RetrieverState) (hdocs : docs ≠ [])
    (hfresh : store₀.lookup (getCollectionName repo) = none) :
    ∃ store₁ st₁,
      buildIndex embed store₀ st₀ docs repo = .ok (store₁, st₁) ∧
      (collectionRecords store₁ (getCollectionName repo)).length
        = docs.length ∧
      st₁.documents = docs ∧
      ∀ embed₂ : String → List ℚ,
        buildIndex embed₂ store₁ st₁ docs repo = .ok (store₁, st₁) := by
  refine ⟨setCollection (store₀ ++ [(getCollectionName repo, [])])
      (getCollectionName repo) (docs.enum.map (recordFor embed)),
    { collection := some (getCollectionName repo), documents := docs },
    buildIndex_fresh embed store₀ st₀ docs repo hdocs hfresh, ?_, rfl, ?_⟩
  · rw [collectionRecords_build store₀ (getCollectionName repo)
      (docs.enum.map (recordFor embed)) hfresh]
    rw [List.length_map, List.enum_length]
  · intro embed₂
    refine buildIndex_cached embed₂ _ _ docs repo
      (docs.enum.map (recordFor embed)) hdocs
      (lookup_setCollection_fresh (getCollectionName repo)
        (docs.enum.map (recordFor embed)) store₀ hfresh) ?_
    simp [List.enum_eq_nil, hdocs]

/-- Closed witness for C1: one document, a fresh store. -/
theorem buildIndex_idempotent_witness :
    ∃ store₁ st₁,
      buildIndex (fun _ => [(1 : ℚ)]) [] ⟨none, []⟩
          [{ content := "x", file_path := "a.py", language := "python",
             chunk_id := 0 }] "demo" = .ok (store₁, st₁) ∧
      (collectionRecords store₁ (getCollectionName "demo")).length
        = [({ content := "x", file_path := "a.py", language := "python",
              chunk_id := 0 } : CodeDocument)].length ∧
      st₁.documents
        = [{ content := "x", file_path := "a.py", language := "python",
             chunk_id := 0 }] ∧
      ∀ embed₂ : String → List ℚ,
        buildIndex embed₂ store₁ st₁
            [{ content := "x", file_path := "a.py", language := "python",
               chunk_id := 0 }] "demo" = .ok (store₁, st₁) :=
  buildIndex_idempotent (fun _ => [(1 : ℚ)])
    [{ content := "x", file_path := "a.py", language := "python",
       chunk_id := 0 }] "demo" [] ⟨none, []⟩ (by decide) rfl

/-- C9 (Id assignment and order): one `build_index` call on an
unpopulated collection stores exactly the records
`doc_0 .. doc_{n-1}` in input order — `doc_i` carries `documents[i]`'s
content and metadata (`file_path`, `language`, `chunk_id`) — and the
batched inserts of at most 500 records concatenate, in order, to the
full record sequence. -/
theorem buildIndex_id_assignment (embed : String → List ℚ)
    (docs : List CodeDocument) (repo : String) (store₀ : Store)
    (st₀ : RetrieverState) (hdocs : docs ≠ [])
    (hfresh : store₀.lookup (getCollectionName repo) = none) :
    ∃ store₁ st₁,
      buildIndex embed store₀ st₀ docs repo = .ok (store₁, st₁) ∧
      collectionRecords store₁ (getCollectionName repo)
        = docs.enum.map (recordFor embed) ∧
      (collectionRecords store₁ (getCollectionName repo)).map
          (fun r => r.id)
        = (List.range docs.length).map (fun i => "doc_" ++ toString i) ∧
      ∀ coll pending : List StoredRecord,
        addBatches coll pending = coll ++ pending := by
  refine ⟨setCollection (store₀ ++ [(getCollectionName repo, [])])
      (getCollectionName repo) (docs.enum.map (recordFor embed)),
    { collection := some (getCollectionName repo), documents := docs },
    buildIndex_fresh embed store₀ st₀ docs repo hdocs hfresh,
    collectionRecords_build store₀ (getCollectionName repo)
      (docs.enum.map (recordFor embed)) hfresh, ?_, addBatches_append⟩
  rw [collectionRecords_build store₀ (getCollectionName repo)
    (docs.enum.map (recordFor embed)) hfresh]
  rw [List.map_map]
  have : (fun r : StoredRecord => r.id) ∘ recordFor embed
      = (fun i => "doc_" ++ toString i) ∘ Prod.fst := rfl
  rw [this, ← List.map_map, List.enum_map_fst]

/-- Closed witness for C9: two documents, a fresh store. -/
theorem buildIndex_id_assignment_witness :
    ∃ store₁ st₁,
      buildIndex (fun s => [(s.length : ℚ)]) [] ⟨none, []⟩
          [{ content := "a", file_path := "a.py", language := "python",
             chunk_id := 0 },
           { content := "b", file_path := "b.py", language := "python",
             chunk_id := 0 }] "demo2" = .ok (store₁, st₁) ∧
      collectionRecords store₁ (getCollectionName "demo2")
        = ([{ content := "a", file_path := "a.py", language := "python",
              chunk_id := 0 },
            { content := "b", file_path := "b.py", language := "python",
              chunk_id := 0 }] : List CodeDocument).enum.map
            (recordFor (fun s => [(s.length : ℚ)])) ∧
      (collectionRecords store₁ (getCollectionName "demo2")).map
          (fun r => r.id)
        = (List.range
            ([{ content := "a", file_path := "a.py",
                language := "python", chunk_id := 0 },
              { content := "b", file_path := "b.py",
                language := "python", chunk_id := 0 }] :
              List CodeDocument).length).map
            (fun i => "doc_" ++ toString i) ∧
      ∀ coll pending : List StoredRecord,
        addBatches coll pending = coll ++ pending :=
  buildIndex_id_assignment (fun s => [(s.length : ℚ)])
    [{ content := "a", file_path := "a.py", language := "python",
       chunk_id := 0 },
     { content := "b", file_path := "b.py", language := "python",
       chunk_id := 0 }] "demo2" [] ⟨none, []⟩ (by decide) rfl

/-! ### Claims about retrieval -/

/-- The score component of the assembled results is `similarity` mapped
over the zipped distance column, in backend order. -/
theorem retrieveResults_scores (texts : List String)
    (metas : List RecordMeta) (dists : List ℚ) :
    (retrieveResults texts metas dists).map (fun r => r.2)
      = ((texts.zip (metas.zip dists)).map (fun p => p.2.2)).map
          similarity := by
  simp [retrieveResults]

/-- With the parallel arrays of equal length (as the backend returns
them), the zipped distance column is the distance array itself. -/
theorem zip_dists_eq (texts : List String) (metas : List RecordMeta)
    (dists : List ℚ) (hlen1 : texts.length = dists.length)
    (hlen2 : metas.length = dists.length) :
    (texts.zip (metas.zip dists)).map (fun p => p.2.2) = dists := by
  have h1 : (texts.zip (metas.zip dists)).map (fun p => p.2.2)
      = ((texts.zip (metas.zip dists)).map Prod.snd).map Prod.snd := by
    rw [List.map_map]
    rfl
  rw [h1, List.map_snd_zip texts (metas.zip dists)
    (by rw [List.length_zip]; omega)]
  exact List.map_snd_zip metas dists (by omega)

/-- C3 (Similarity bounds): the similarity computed by `retrieve` for a
distance `d` equals `clamp(1 - d^2/2, 0.0, 1.0)`, lies in `[0.0, 1.0]`,
equals exactly `1.0` at `d = 0`, and is what `retrieve` attaches to every
returned result. -/
theorem retrieve_similarity_bounds :
    (∀ d : ℚ, similarity d = max 0 (min 1 (1 - d ^ 2 / 2))
      ∧ 0 ≤ similarity d ∧ similarity d ≤ 1)
    ∧ similarity 0 = 1
    ∧ ∀ (texts : List String) (metas : List RecordMeta)
        (dists : List ℚ),
        (retrieveResults texts metas dists).map (fun r => r.2)
          = ((texts.zip (metas.zip dists)).map (fun p => p.2.2)).map
              similarity := by
  refine ⟨fun d => ⟨rfl, le_max_left 0 _, ?_⟩, ?_, retrieveResults_scores⟩
  · exact max_le (by norm_num) (min_le_left 1 _)
  · norm_num [similarity]

/-- Function `similarity` is antitone on nonnegative distances. -/
theorem similarity_antitone {a b : ℚ} (ha : 0 ≤ a) (hab : a ≤ b) :
    similarity b ≤ similarity a := by
  unfold similarity
  have h2 : a ^ 2 ≤ b ^ 2 := by nlinarith
  exact max_le_max (le_refl 0)
    (min_le_min (le_refl 1) (by linarith))

theorem sorted_map_similarity :
    ∀ dists : List ℚ, (∀ d ∈ dists, 0 ≤ d) → dists.Sorted (· ≤ ·) →
      (dists.map similarity).Sorted (fun a b => b ≤ a) := by
  intro dists
  induction dists with
  | nil =>
    intro _ _
    simp
  | cons d rest ih =>
    intro hnn hs
    rw [List.sorted_cons] at hs
    rw [List.map_cons, List.sorted_cons]
    constructor
    · intro x hx
      obtain ⟨e, he, rfl⟩ := List.mem_map.mp hx
      exact similarity_antitone (hnn d (by simp)) (hs.1 e he)
    · exact ih (fun x hx => hnn x (by simp [hx])) hs.2

/-- C6 (Retrieval ordering): when the storage backend returns neighbors
ordered by ascending distance, the (Chunk, similarity) sequence produced
by `retrieve` is non-increasing in similarity; `retrieve` does not
re-sort the backend's order (the score column is exactly `similarity`
mapped over the backend's distance array, position by position). -/
theorem retrieve_ordering (texts : List String) (metas : List RecordMeta)
    (dists : List ℚ) (hlen1 : texts.length = dists.length)
    (hlen2 : metas.length = dists.length)
    (hnn : ∀ d ∈ dists, 0 ≤ d) (hsorted : dists.Sorted (· ≤ ·)) :
    ((retrieveResults texts metas dists).map (fun r => r.2)).Sorted
        (fun a b => b ≤ a)
    ∧ (retrieveResults texts metas dists).map (fun r => r.2)
        = dists.map similarity := by
  have he : (retrieveResults texts metas dists).map (fun r => r.2)
      = dists.map similarity := by
    rw [retrieveResults_scores, zip_dists_eq texts metas dists hlen1 hlen2]
  exact ⟨he ▸ sorted_map_similarity dists hnn hsorted, he⟩

/-- Closed witness for C6 at concrete backend arrays. -/
theorem retrieve_ordering_witness :
    ((retrieveResults ["a", "b", "c"]
        [⟨"a.py", "python", 0⟩, ⟨"b.py", "python", 1⟩,
         ⟨"c.py", "python", 2⟩] [0, 1, 2]).map (fun r => r.2)).Sorted
        (fun a b => b ≤ a)
    ∧ (retrieveResults ["a", "b", "c"]
        [⟨"a.py", "python", 0⟩, ⟨"b.py", "python", 1⟩,
         ⟨"c.py", "python", 2⟩] [0, 1, 2]).map (fun r => r.2)
        = ([0, 1, 2] : List ℚ).map similarity :=
  retrieve_ordering ["a", "b", "c"]
    [⟨"a.py", "python", 0⟩, ⟨"b.py", "python", 1⟩, ⟨"c.py", "python", 2⟩]
    [0, 1, 2] (by decide) (by decide) (by decide) (by decide)

/-- C10 (Implicit `k = 0` fallback): `retrieve(query, top_k=0)` behaves
identically to `retrieve` with `top_k` unsupplied — Python's
`top_k or Settings.TOP_K_RESULTS` replaces the falsy `0` by the
configured default 5 — and on an attached collection it returns the
backend's results for `min(5, count)`, not an empty list. -/
theorem retrieve_topk_zero_default (collection : Option String)
    (backendQuery : Int → List String × List RecordMeta × List ℚ)
    (count : Nat) :
    retrieve collection backendQuery count (some 0)
        = retrieve collection backendQuery count none
    ∧ effectiveTopK (some 0) = TOP_K_RESULTS
    ∧ effectiveTopK none = TOP_K_RESULTS
    ∧ ∀ nm : String,
        retrieve (some nm) backendQuery count (some 0)
          = .ok (retrieveResults
              (backendQuery (min (TOP_K_RESULTS : Int) count)).1
              (backendQuery (min (TOP_K_RESULTS : Int) count)).2.1
              (backendQuery (min (TOP_K_RESULTS : Int) count)).2.2) := by
  refine ⟨?_, rfl, rfl, fun nm => rfl⟩
  cases collection <;> rfl

end GitAssistant
